import Mathlib

/-!
Verification development for `src/seo-content-gap-analysis.py`.

The file embeds the two core functions of the script — the keyword-record
normalizer `extract_keyword_info` (source lines 104-153) and the gap
analyzer `content_gap_analysis` (source lines 156-255) — as executable
Lean definitions, and proves the specification's claims about them.

Raw API items are modelled as JSON-like values (`JValue`); a pandas
DataFrame built from a list of such items is modelled by per-row access
plus explicit column-existence checks.  Fallible Python code (KeyError,
AttributeError, the `return None` path) is modelled with `Except`.
-/

namespace SeoGap

instance {ε α : Type} [DecidableEq ε] [DecidableEq α] : DecidableEq (Except ε α) := fun a b =>
  match a, b with
  | .error e, .error f =>
    if h : e = f then .isTrue (by rw [h]) else .isFalse (fun hc => h (Except.error.inj hc))
  | .ok x, .ok y =>
    if h : x = y then .isTrue (by rw [h]) else .isFalse (fun hc => h (Except.ok.inj hc))
  | .error _, .ok _ => .isFalse (fun hc => Except.noConfusion hc)
  | .ok _, .error _ => .isFalse (fun hc => Except.noConfusion hc)

mutual
/-- A JSON-like value: the shapes the script inspects (`None`, numbers,
strings, dicts).  Numbers are modelled as integers; the script only ever
passes them through, never computes with them. -/
inductive JValue where
  | null : JValue
  | num : Int → JValue
  | str : String → JValue
  | obj : JFields → JValue
deriving DecidableEq

/-- The fields of a JSON object, as an ordered association list
(Python dict insertion order). -/
inductive JFields where
  | nil : JFields
  | cons : String → JValue → JFields → JFields
deriving DecidableEq
end

/-- Python dict key lookup (first binding wins; dicts built from literals
have unique keys). -/
def JFields.lookupF : JFields → String → Option JValue
  | .nil, _ => none
  | .cons k v rest, key => if k = key then some v else rest.lookupF key

/-- Python `isinstance(x, dict)`. -/
def JValue.isDict : JValue → Bool
  | .obj _ => true
  | _ => false

/-- Python truthiness of the values the script tests with `and`. -/
def JValue.truthy : JValue → Bool
  | .null => false
  | .num n => n != 0
  | .str s => s != ""
  | .obj .nil => false
  | .obj (.cons _ _ _) => true

/-- Python `x.get(key, default)` for an `x` the call site has already
guarded with `isinstance(x, dict)` (a non-dict just yields the default;
that branch is never reached at guarded call sites). -/
def JValue.getD : JValue → String → JValue → JValue
  | .obj fs, key, dflt => (fs.lookupF key).getD dflt
  | _, _, dflt => dflt

/-- Python `v.get(key, default)` where `v` may be any value: calling
`.get` on a non-dict raises `AttributeError`, modelled as `.error ()`. -/
def pyGet (v : JValue) (key : String) (dflt : JValue) : Except Unit JValue :=
  match v with
  | .obj fs => .ok ((fs.lookupF key).getD dflt)
  | _ => .error ()

/-- Python `str.lower()`, character-wise (the data in play is ASCII). -/
def pyLower (s : String) : String := ⟨s.data.map Char.toLower⟩

/-- Python `str.strip()`: drop leading and trailing whitespace. -/
def pyStrip (s : String) : String :=
  ⟨((s.data.dropWhile Char.isWhitespace).reverse.dropWhile Char.isWhitespace).reverse⟩

/-- One normalized keyword row, i.e. one row of the DataFrame returned by
`extract_keyword_info` restricted to `columns_to_keep` (source lines 149-153).
`positions` and `traffic` hold the per-domain columns
`f"\x7bdomain\x7d_Position"` / `f"\x7bdomain\x7d_Traffic"`. -/
structure Record where
  keyword : JValue
  search_volume : JValue
  keyword_difficulty : JValue
  cpc : JValue
  last_updated_time : JValue
  positions : List (String × JValue)
  traffic : List (String × JValue)
deriving DecidableEq

/-- DataFrame cell access `df[col]` at one raw item: a key the item lacks is
the column's NaN hole.  NaN and an absent value behave identically at every
place cells are inspected (an `isinstance(x, dict)` guard comes first), so
both are modelled as `.null`. -/
def getCell (item : JValue) (col : String) : JValue :=
  match item with
  | .obj fs => (fs.lookupF col).getD .null
  | _ => .null

/-- Source lines 120-122: the `keyword` column lambda over the
`keyword_data` cell `x`. -/
def extractKeyword (x : JValue) : JValue :=
  if x.isDict then x.getD "keyword" (.str "N/A") else .str "N/A"

/-- Source lines 123-125: the `search_volume` column lambda; a present but
non-dict `keyword_info` raises `AttributeError`. -/
def extractSearchVolume (x : JValue) : Except Unit JValue :=
  if x.isDict then pyGet (x.getD "keyword_info" (.obj .nil)) "search_volume" (.num 0)
  else .ok (.num 0)

/-- Source lines 126-128: the `Keyword_Difficulty` column lambda. -/
def extractDifficulty (x : JValue) : Except Unit JValue :=
  if x.isDict then pyGet (x.getD "keyword_properties" (.obj .nil)) "keyword_difficulty" (.num 0)
  else .ok (.num 0)

/-- Source lines 129-132: the `CPC` column lambda.  The condition itself
evaluates `x.get('keyword_info', \x7b\x7d).get('cpc')` (default `None`), so a
non-dict `keyword_info` raises before the branch is chosen. -/
def extractCpc (x : JValue) : Except Unit JValue :=
  if x.isDict then
    match pyGet (x.getD "keyword_info" (.obj .nil)) "cpc" .null with
    | .error e => .error e
    | .ok v =>
      if v = .null then .ok (.num 0)
      else pyGet (x.getD "keyword_info" (.obj .nil)) "cpc" (.num 0)
  else .ok (.num 0)

/-- Source lines 133-135: the `last_updated_time` column lambda. -/
def extractLastUpdated (x : JValue) : Except Unit JValue :=
  if x.isDict then pyGet (x.getD "keyword_info" (.obj .nil)) "last_updated_time" (.str "N/A")
  else .ok (.str "N/A")

/-- Source lines 139-142: the per-domain `_Position` lambda.  Note that it
reads `avg_backlinks_info` from the `keyword_data` cell `x`, not from the
item's top level. -/
def extractPosition (x : JValue) : Except Unit JValue :=
  if x.isDict ∧ (x.getD "avg_backlinks_info" .null).truthy then
    pyGet (x.getD "avg_backlinks_info" (.obj .nil)) "rank" (.num 0)
  else .ok (.num 0)

/-- Source lines 143-146: the per-domain `_Traffic` lambda over the
top-level `ranked_serp_element` cell `x`. -/
def extractTraffic (x : JValue) : Except Unit JValue :=
  if x.isDict ∧ (x.getD "serp_item" .null).truthy then
    pyGet (x.getD "serp_item" (.obj .nil)) "etv" (.num 0)
  else .ok (.num 0)

/-- All column lambdas of `extract_keyword_info` applied to one row.  The
source applies them column-wise over the whole frame; since every raised
exception is collapsed to `.error ()`, processing row-wise is observably the
same function.  Every domain in `domain_list` receives the same position and
traffic values, sourced from this one item (source lines 138-146). -/
def extract_one (item : JValue) (domain_list : List String) : Except Unit Record :=
  let kd := getCell item "keyword_data"
  match extractSearchVolume kd with
  | .error e => .error e
  | .ok sv =>
    match extractDifficulty kd with
    | .error e => .error e
    | .ok kdiff =>
      match extractCpc kd with
      | .error e => .error e
      | .ok cpcv =>
        match extractLastUpdated kd with
        | .error e => .error e
        | .ok lu =>
          match extractPosition kd with
          | .error e => .error e
          | .ok posv =>
            match extractTraffic (getCell item "ranked_serp_element") with
            | .error e => .error e
            | .ok trafv =>
              .ok ⟨extractKeyword kd, sv, kdiff, cpcv, lu,
                   domain_list.map (fun d => (d, posv)),
                   domain_list.map (fun d => (d, trafv))⟩

/-- A DataFrame built from `items` has column `col` iff some item carries
that key (`pd.DataFrame(list_of_dicts)` takes the union of the keys). -/
def hasColumn (items : List JValue) (col : String) : Bool :=
  items.any (fun it =>
    match it with
    | .obj fs => (fs.lookupF col).isSome
    | _ => false)

/-- Row-wise processing of all items. -/
def extractRows : List JValue → List String → Except Unit (List Record)
  | [], _ => .ok []
  | it :: rest, dl =>
    match extract_one it dl with
    | .error e => .error e
    | .ok r =>
      match extractRows rest dl with
      | .error e => .error e
      | .ok rs => .ok (r :: rs)

/-- Source lines 104-153, `extract_keyword_info`.  An empty frame is
returned as-is (lines 115-117).  Accessing a column no item carries is a
pandas `KeyError`: `df['keyword_data']` is always touched, and
`df['ranked_serp_element']` is touched as soon as `domain_list` is nonempty;
both exceptions are collapsed into `.error ()`. -/
def extract_keyword_info (items : List JValue) (domain_list : List String) :
    Except Unit (List Record) :=
  if items.isEmpty then .ok []
  else if ¬ hasColumn items "keyword_data" then .error ()
  else if domain_list ≠ [] ∧ ¬ hasColumn items "ranked_serp_element" then .error ()
  else extractRows items domain_list

/-- Source lines 178 and 203: `df['keyword'].str.lower().str.strip()`.
pandas maps the string entries and turns non-string entries into NaN
(modelled `.null`). -/
def normalizeKeywordValue : JValue → JValue
  | .str s => .str (pyStrip (pyLower s))
  | _ => .null

/-- Apply the keyword normalization to the keyword column of a dataset. -/
def normalizeDataset (rs : List Record) : List Record :=
  rs.map (fun r => ⟨normalizeKeywordValue r.keyword, r.search_volume, r.keyword_difficulty,
                    r.cpc, r.last_updated_time, r.positions, r.traffic⟩)

/-- The ways `content_gap_analysis` can fail to return a result:
`noPrimaryData` is the `return None` at source line 173; `extractError` is an
uncaught exception escaping `extract_keyword_info`; `keyError d` is the
uncaught `KeyError` from `all_keywords[d]` in the matrix loop (lines
218-228); `emptyConcat` is the `ValueError` of `pd.concat` on an empty
collection (line 237). -/
inductive GapError where
  | noPrimaryData : GapError
  | extractError : GapError
  | keyError : String → GapError
  | emptyConcat : GapError
deriving DecidableEq

/-- Python dict lookup on an insertion-ordered association list. -/
def alookup {α : Type} : List (String × α) → String → Option α
  | [], _ => none
  | (k, v) :: rest, key => if key = k then some v else alookup rest key

/-- Python dict assignment `m[k] = v`: overwrite in place when the key
exists, otherwise append (insertion order). -/
def updateA {α : Type} : List (String × α) → String → α → List (String × α)
  | [], k, v => [(k, v)]
  | (k', v') :: rest, k, v =>
    if k' = k then (k, v) :: rest else (k', v') :: updateA rest k v

/-- The `keyword` column of a dataset. -/
def keywordsOf (rs : List Record) : List JValue := rs.map Record.keyword

/-- Python `len(set(A).intersection(set(B)))` (source lines 223-226). -/
def interCount (A B : List JValue) : Nat :=
  (A.dedup.filter (fun k => decide (k ∈ B))).length

/-- Source lines 168-178: fetch the primary domain, fail with `None` when
the fetch is empty, extract with `domain_list = [my_domain]` and normalize
the keyword column. -/
def primaryDataset (my_domain : String) (fetch : String → List JValue) :
    Except GapError (List Record) :=
  let my_items := fetch my_domain
  if my_items.isEmpty then .error .noPrimaryData
  else
    match extract_keyword_info my_items [my_domain] with
    | .error _ => .error .extractError
    | .ok rs => .ok (normalizeDataset rs)

/-- Source lines 191-211: the competitor loop.  A competitor whose fetch is
empty is skipped (only a warning is printed); otherwise its items are
extracted with `domain_list = competitors` (the full list), normalized,
stored in `all_keywords`, and the primary rows whose keyword occurs in the
competitor's keyword column are stored in `common_keywords`. -/
def processCompetitors (fetch : String → List JValue) (competitors : List String)
    (my_keywords_df : List Record)
    (all_kw common_kw : List (String × List Record)) :
    List String →
    Except GapError (List (String × List Record) × List (String × List Record))
  | [] => .ok (all_kw, common_kw)
  | competitor :: rest =>
    let items := fetch competitor
    if items.isEmpty then
      processCompetitors fetch competitors my_keywords_df all_kw common_kw rest
    else
      match extract_keyword_info items competitors with
      | .error _ => .error .extractError
      | .ok rs =>
        let competitor_df := normalizeDataset rs
        let common_sub := my_keywords_df.filter
          (fun r => decide (r.keyword ∈ keywordsOf competitor_df))
        processCompetitors fetch competitors my_keywords_df
          (updateA all_kw competitor competitor_df)
          (updateA common_kw competitor common_sub) rest

/-- Source lines 168-211: primary dataset plus the competitor loop, yielding
the `all_keywords` and `common_keywords` dicts. -/
def keywordTables (competitors : List String) (my_domain : String)
    (fetch : String → List JValue) :
    Except GapError (List (String × List Record) × List (String × List Record)) :=
  match primaryDataset my_domain fetch with
  | .error e => .error e
  | .ok my_keywords_df =>
    processCompetitors fetch competitors my_keywords_df
      [(my_domain, my_keywords_df)] [] competitors

/-- One matrix cell (source lines 220-226), in total form; `buildRow` only
uses it after both lookups succeeded. -/
def matrixEntry (ak : List (String × List Record)) (d1 d2 : String) : Nat :=
  if d1 = d2 then ((alookup ak d1).getD []).length
  else interCount (keywordsOf ((alookup ak d1).getD []))
                  (keywordsOf ((alookup ak d2).getD []))

/-- One row of the matrix loop: `for domain2 in domain_names`.  Looking up a
domain that was skipped raises `KeyError`; `domain1` is dereferenced first,
exactly as in `all_keywords[domain1] ... all_keywords[domain2]`. -/
def buildRow (ak : List (String × List Record)) (d1 : String) :
    List String → Except GapError (List (String × Nat))
  | [] => .ok []
  | d2 :: rest =>
    match alookup ak d1 with
    | none => .error (.keyError d1)
    | some _ =>
      match alookup ak d2 with
      | none => .error (.keyError d2)
      | some _ =>
        match buildRow ak d1 rest with
        | .error e => .error e
        | .ok row => .ok ((d2, matrixEntry ak d1 d2) :: row)

/-- The outer matrix loop: `for domain1 in domain_names`. -/
def buildRows (ak : List (String × List Record)) (dn_all : List String) :
    List String → Except GapError (List (String × List (String × Nat)))
  | [] => .ok []
  | d1 :: rest =>
    match buildRow ak d1 dn_all with
    | .error e => .error e
    | .ok row =>
      match buildRows ak dn_all rest with
      | .error e => .error e
      | .ok rows => .ok ((d1, row) :: rows)

/-- Source lines 214-228: the square common-keywords matrix over
`domain_names = [my_domain] + competitors`. -/
def buildMatrix (ak : List (String × List Record)) (dn : List String) :
    Except GapError (List (String × List (String × Nat))) :=
  buildRows ak dn dn

/-- The dictionary returned at source lines 249-253. -/
structure AnalysisResult where
  all_keywords_df : List Record
  common_keywords_df : List Record
  matrix : List (String × List (String × Nat))
deriving DecidableEq

/-- Source lines 156-255, `content_gap_analysis`: primary dataset, the
competitor loop, the intersection matrix, then the two concatenations
(`pd.concat` over the dict values, source lines 236-237; concatenating an
empty collection raises `ValueError`, reachable only when `competitors` is
`[]` since otherwise a missing competitor already raised `KeyError`). -/
def content_gap_analysis (competitors : List String) (my_domain : String)
    (fetch : String → List JValue) : Except GapError AnalysisResult :=
  match keywordTables competitors my_domain fetch with
  | .error e => .error e
  | .ok (all_keywords, common_keywords) =>
    match buildMatrix all_keywords (my_domain :: competitors) with
    | .error e => .error e
    | .ok m =>
      let all_keywords_df := (all_keywords.map Prod.snd).flatten
      if common_keywords.isEmpty then .error .emptyConcat
      else .ok ⟨all_keywords_df, (common_keywords.map Prod.snd).flatten, m⟩

/-! ### Helper lemmas -/

theorem alookup_updateA {α : Type} (m : List (String × α)) (k key : String) (v : α) :
    alookup (updateA m k v) key = if key = k then some v else alookup m key := by
  induction m with
  | nil => simp [updateA, alookup]
  | cons p rest ih =>
    obtain ⟨k', v'⟩ := p
    by_cases h : k' = k
    · subst h
      simp only [updateA, if_pos rfl, alookup]
      by_cases hk : key = k'
      · simp [hk]
      · simp [hk]
    · simp only [updateA, if_neg h, alookup]
      by_cases hk : key = k'
      · have hkk : ¬ key = k := by rw [hk]; exact fun hc => h hc
        simp [hk, hkk, h]
      · simp [hk, ih]

theorem updateA_fresh {α : Type} (m : List (String × α)) (k : String) (v : α)
    (h : alookup m k = none) : updateA m k v = m ++ [(k, v)] := by
  induction m with
  | nil => simp [updateA]
  | cons p rest ih =>
    obtain ⟨k', v'⟩ := p
    simp only [alookup] at h
    by_cases hk : k = k'
    · simp [hk] at h
    · have h' : ¬ k' = k := fun hc => hk hc.symm
      simp only [updateA, if_neg h']
      simp only [if_neg hk] at h
      simp [ih h]

theorem interCount_eq_card (A B : List JValue) :
    interCount A B = (A.toFinset ∩ B.toFinset).card := by
  classical
  unfold interCount
  have hnd : (A.dedup.filter (fun k => decide (k ∈ B))).Nodup :=
    A.nodup_dedup.filter _
  have hdf : A.dedup.toFinset = A.toFinset := by
    ext x
    simp [List.mem_dedup]
  rw [← List.toFinset_card_of_nodup hnd, List.toFinset_filter, hdf]
  congr 1
  rw [← Finset.filter_mem_eq_inter]
  apply Finset.filter_congr
  intro x _
  simp

theorem interCount_comm (A B : List JValue) : interCount A B = interCount B A := by
  rw [interCount_eq_card, interCount_eq_card, Finset.inter_comm]

theorem matrixEntry_comm (ak : List (String × List Record)) (a b : String) :
    matrixEntry ak a b = matrixEntry ak b a := by
  unfold matrixEntry
  by_cases h : a = b
  · simp [h]
  · have h' : ¬ b = a := fun hc => h hc.symm
    simp [h, h', interCount_comm]

theorem buildRow_mem (ak : List (String × List Record)) (d1 : String)
    (dn : List String) (row : List (String × Nat))
    (h : buildRow ak d1 dn = .ok row) :
    ∀ b c, (b, c) ∈ row →
      (alookup ak d1).isSome ∧ (alookup ak b).isSome ∧ c = matrixEntry ak d1 b := by
  induction dn generalizing row with
  | nil =>
    simp only [buildRow] at h
    cases h
    intro b c hc
    simp at hc
  | cons d2 rest ih =>
    simp only [buildRow] at h
    cases h1 : alookup ak d1 with
    | none => rw [h1] at h; cases h
    | some ds1 =>
      rw [h1] at h
      cases h2 : alookup ak d2 with
      | none => rw [h2] at h; cases h
      | some ds2 =>
        rw [h2] at h
        cases h3 : buildRow ak d1 rest with
        | error e => rw [h3] at h; cases h
        | ok row' =>
          rw [h3] at h
          cases h
          intro b c hc
          rcases List.mem_cons.mp hc with heq | hmem
          · cases heq
            exact ⟨by simp, by simp [h2], rfl⟩
          · exact ⟨by simp, (ih row' h3 b c hmem).2.1, (ih row' h3 b c hmem).2.2⟩

theorem buildRows_mem (ak : List (String × List Record)) (dn_all dn : List String)
    (M : List (String × List (String × Nat)))
    (h : buildRows ak dn_all dn = .ok M) :
    ∀ a row, (a, row) ∈ M → buildRow ak a dn_all = .ok row := by
  induction dn generalizing M with
  | nil =>
    simp only [buildRows] at h
    cases h
    intro a row hrow
    simp at hrow
  | cons d1 rest ih =>
    simp only [buildRows] at h
    cases h1 : buildRow ak d1 dn_all with
    | error e => rw [h1] at h; cases h
    | ok row1 =>
      rw [h1] at h
      cases h2 : buildRows ak dn_all rest with
      | error e => rw [h2] at h; cases h
      | ok M' =>
        rw [h2] at h
        cases h
        intro a row hrow
        rcases List.mem_cons.mp hrow with heq | hmem
        · cases heq
          exact h1
        · exact ih M' h2 a row hmem

/-- Unfold a successful run of `content_gap_analysis` into its phases. -/
theorem content_ok_parts (competitors : List String) (my_domain : String)
    (fetch : String → List JValue) (res : AnalysisResult)
    (h : content_gap_analysis competitors my_domain fetch = .ok res) :
    ∃ ak ck, keywordTables competitors my_domain fetch = .ok (ak, ck) ∧
      buildMatrix ak (my_domain :: competitors) = .ok res.matrix ∧
      res.all_keywords_df = (ak.map Prod.snd).flatten ∧
      res.common_keywords_df = (ck.map Prod.snd).flatten ∧ ck ≠ [] := by
  unfold content_gap_analysis at h
  cases hkt : keywordTables competitors my_domain fetch with
  | error e =>
    rw [hkt] at h
    simp at h
  | ok p =>
    obtain ⟨ak, ck⟩ := p
    rw [hkt] at h
    dsimp only at h
    cases hm : buildMatrix ak (my_domain :: competitors) with
    | error e =>
      rw [hm] at h
      simp at h
    | ok m =>
      rw [hm] at h
      dsimp only at h
      cases hck : ck.isEmpty with
      | true =>
        rw [hck] at h
        simp at h
      | false =>
        rw [hck] at h
        simp only [Bool.false_eq_true, if_false] at h
        injection h with h'
        subst h'
        refine ⟨ak, ck, rfl, hm, rfl, rfl, ?_⟩
        intro hc
        rw [hc] at hck
        simp at hck

/-- Loop invariant of the competitor loop: every `common_keywords` entry is
the primary rows filtered by membership in the keyword column of the
`all_keywords` entry stored under the same name. -/
def commonInv (myk : List Record) (A C : List (String × List Record)) : Prop :=
  ∀ c sub, alookup C c = some sub →
    ∃ ds, alookup A c = some ds ∧
      sub = myk.filter (fun r => decide (r.keyword ∈ keywordsOf ds))

theorem processCompetitors_commonInv (fetch : String → List JValue)
    (competitors : List String) (myk : List Record)
    (rem : List String) (A' C' : List (String × List Record)) :
    ∀ A C, processCompetitors fetch competitors myk A C rem = .ok (A', C') →
      commonInv myk A C → commonInv myk A' C' := by
  induction rem with
  | nil =>
    intro A C h inv
    simp only [processCompetitors] at h
    injection h with h'
    injection h' with h1 h2
    subst h1
    subst h2
    exact inv
  | cons competitor rest ih =>
    intro A C h inv
    simp only [processCompetitors] at h
    by_cases hemp : (fetch competitor).isEmpty = true
    · rw [if_pos hemp] at h
      exact ih A C h inv
    · rw [if_neg hemp] at h
      cases hx : extract_keyword_info (fetch competitor) competitors with
      | error e =>
        rw [hx] at h
        cases h
      | ok rs =>
        rw [hx] at h
        dsimp only at h
        refine ih _ _ h ?_
        intro c sub hsub
        rw [alookup_updateA] at hsub
        by_cases hc : c = competitor
        · rw [if_pos hc] at hsub
          injection hsub with hs
          refine ⟨normalizeDataset rs, ?_, hs.symm⟩
          rw [alookup_updateA, if_pos hc]
        · rw [if_neg hc] at hsub
          obtain ⟨ds, hds, hfil⟩ := inv c sub hsub
          refine ⟨ds, ?_, hfil⟩
          rw [alookup_updateA, if_neg hc]
          exact hds

/-- Loop invariant: every `all_keywords` entry was produced by extracting the
fetch of its own key (under some domain context) and normalizing. -/
def provInv (fetch : String → List JValue) (A : List (String × List Record)) : Prop :=
  ∀ c ds, alookup A c = some ds →
    ∃ ctx rs, extract_keyword_info (fetch c) ctx = .ok rs ∧ ds = normalizeDataset rs

theorem processCompetitors_provInv (fetch : String → List JValue)
    (competitors : List String) (myk : List Record)
    (rem : List String) (A' C' : List (String × List Record)) :
    ∀ A C, processCompetitors fetch competitors myk A C rem = .ok (A', C') →
      provInv fetch A → provInv fetch A' := by
  induction rem with
  | nil =>
    intro A C h inv
    simp only [processCompetitors] at h
    injection h with h'
    injection h' with h1 h2
    subst h1
    exact inv
  | cons competitor rest ih =>
    intro A C h inv
    simp only [processCompetitors] at h
    by_cases hemp : (fetch competitor).isEmpty = true
    · rw [if_pos hemp] at h
      exact ih A C h inv
    · rw [if_neg hemp] at h
      cases hx : extract_keyword_info (fetch competitor) competitors with
      | error e =>
        rw [hx] at h
        cases h
      | ok rs =>
        rw [hx] at h
        dsimp only at h
        refine ih _ _ h ?_
        intro c ds hds
        rw [alookup_updateA] at hds
        by_cases hc : c = competitor
        · rw [if_pos hc] at hds
          injection hds with hd
          subst hc
          exact ⟨competitors, rs, hx, hd.symm⟩
        · rw [if_neg hc] at hds
          exact inv c ds hds

theorem processCompetitors_keys (fetch : String → List JValue)
    (competitors : List String) (myk : List Record)
    (rem : List String) (A' C' : List (String × List Record)) :
    ∀ A C, processCompetitors fetch competitors myk A C rem = .ok (A', C') →
      (∀ c, c ∈ rem → alookup A c = none) →
      (∀ c, c ∈ rem → alookup C c = none) →
      rem.Nodup →
      A'.map Prod.fst = A.map Prod.fst ++ rem.filter (fun c => !(fetch c).isEmpty) ∧
      C'.map Prod.fst = C.map Prod.fst ++ rem.filter (fun c => !(fetch c).isEmpty) ∧
      (∀ key, key ∉ rem → alookup A' key = alookup A key ∧ alookup C' key = alookup C key) := by
  induction rem with
  | nil =>
    intro A C h _ _ _
    simp only [processCompetitors] at h
    injection h with h'
    injection h' with h1 h2
    subst h1
    subst h2
    exact ⟨by simp, by simp, fun key _ => ⟨rfl, rfl⟩⟩
  | cons competitor rest ih =>
    intro A C h hfA hfC hnd
    simp only [processCompetitors] at h
    by_cases hemp : (fetch competitor).isEmpty = true
    · rw [if_pos hemp] at h
      obtain ⟨e1, e2, e3⟩ := ih A C h (fun c hc => hfA c (List.mem_cons_of_mem _ hc))
        (fun c hc => hfC c (List.mem_cons_of_mem _ hc)) (List.Nodup.of_cons hnd)
      refine ⟨?_, ?_, ?_⟩
      · rw [e1]
        simp [List.filter_cons, hemp]
      · rw [e2]
        simp [List.filter_cons, hemp]
      · intro key hkey
        exact e3 key (fun hc => hkey (List.mem_cons_of_mem _ hc))
    · rw [if_neg hemp] at h
      cases hx : extract_keyword_info (fetch competitor) competitors with
      | error e =>
        rw [hx] at h
        cases h
      | ok rs =>
        rw [hx] at h
        dsimp only at h
        have hAn : alookup A competitor = none := hfA competitor (List.mem_cons_self _ _)
        have hCn : alookup C competitor = none := hfC competitor (List.mem_cons_self _ _)
        have hnotin : competitor ∉ rest := (List.nodup_cons.mp hnd).1
        have hfA' : ∀ c, c ∈ rest → alookup (updateA A competitor (normalizeDataset rs)) c = none := by
          intro c hc
          rw [alookup_updateA, if_neg (fun he : c = competitor => hnotin (he ▸ hc))]
          exact hfA c (List.mem_cons_of_mem _ hc)
        have hfC' : ∀ c, c ∈ rest →
            alookup (updateA C competitor
              (myk.filter (fun r => decide (r.keyword ∈ keywordsOf (normalizeDataset rs))))) c = none := by
          intro c hc
          rw [alookup_updateA, if_neg (fun he : c = competitor => hnotin (he ▸ hc))]
          exact hfC c (List.mem_cons_of_mem _ hc)
        obtain ⟨e1, e2, e3⟩ := ih _ _ h hfA' hfC' (List.nodup_cons.mp hnd).2
        refine ⟨?_, ?_, ?_⟩
        · rw [e1, updateA_fresh A competitor _ hAn]
          simp [List.filter_cons, hemp]
        · rw [e2, updateA_fresh C competitor _ hCn]
          simp [List.filter_cons, hemp]
        · intro key hkey
          have hkr : key ∉ rest := fun hc => hkey (List.mem_cons_of_mem _ hc)
          have hkc : ¬ key = competitor := fun he => hkey (he ▸ List.mem_cons_self _ _)
          obtain ⟨f1, f2⟩ := e3 key hkr
          constructor
          · rw [f1, alookup_updateA, if_neg hkc]
          · rw [f2, alookup_updateA, if_neg hkc]

theorem keywordTables_parts (competitors : List String) (my_domain : String)
    (fetch : String → List JValue) (ak ck : List (String × List Record))
    (h : keywordTables competitors my_domain fetch = .ok (ak, ck)) :
    ∃ myk, primaryDataset my_domain fetch = .ok myk ∧
      processCompetitors fetch competitors myk [(my_domain, myk)] [] competitors = .ok (ak, ck) := by
  unfold keywordTables at h
  cases hp : primaryDataset my_domain fetch with
  | error e =>
    rw [hp] at h
    cases h
  | ok myk =>
    rw [hp] at h
    exact ⟨myk, rfl, h⟩

theorem primaryDataset_parts (my_domain : String) (fetch : String → List JValue)
    (myk : List Record) (h : primaryDataset my_domain fetch = .ok myk) :
    ∃ rs, extract_keyword_info (fetch my_domain) [my_domain] = .ok rs ∧
      myk = normalizeDataset rs := by
  unfold primaryDataset at h
  dsimp only at h
  by_cases hemp : (fetch my_domain).isEmpty = true
  · rw [if_pos hemp] at h
    cases h
  · rw [if_neg hemp] at h
    cases hx : extract_keyword_info (fetch my_domain) [my_domain] with
    | error e =>
      rw [hx] at h
      cases h
    | ok rs =>
      rw [hx] at h
      injection h with h'
      exact ⟨rs, rfl, h'.symm⟩

theorem extractRows_mem (dl : List String) :
    ∀ (items : List JValue) (rs : List Record), extractRows items dl = .ok rs →
      ∀ it, it ∈ items → ∃ r, r ∈ rs ∧ extract_one it dl = .ok r := by
  intro items
  induction items with
  | nil =>
    intro rs _ it hit
    simp at hit
  | cons it0 rest ih =>
    intro rs h it hit
    simp only [extractRows] at h
    cases h1 : extract_one it0 dl with
    | error e =>
      rw [h1] at h
      cases h
    | ok r0 =>
      rw [h1] at h
      cases h2 : extractRows rest dl with
      | error e =>
        rw [h2] at h
        cases h
      | ok rs' =>
        rw [h2] at h
        injection h with h'
        subst h'
        rcases List.mem_cons.mp hit with heq | hmem
        · subst heq
          exact ⟨r0, List.mem_cons_self _ _, h1⟩
        · obtain ⟨r, hr, he⟩ := ih rs' h2 it hmem
          exact ⟨r, List.mem_cons_of_mem _ hr, he⟩

theorem extract_keyword_info_mem (items : List JValue) (dl : List String)
    (rs : List Record) (h : extract_keyword_info items dl = .ok rs) :
    ∀ it, it ∈ items → ∃ r, r ∈ rs ∧ extract_one it dl = .ok r := by
  unfold extract_keyword_info at h
  by_cases h1 : items.isEmpty = true
  · rw [if_pos h1] at h
    intro it hit
    rw [List.isEmpty_iff.mp h1] at hit
    simp at hit
  · rw [if_neg h1] at h
    by_cases h2 : ¬ hasColumn items "keyword_data" = true
    · rw [if_pos h2] at h
      cases h
    · rw [if_neg h2] at h
      by_cases h3 : dl ≠ [] ∧ ¬ hasColumn items "ranked_serp_element" = true
      · rw [if_pos h3] at h
        cases h
      · rw [if_neg h3] at h
        exact extractRows_mem dl items rs h

/-- The shape of any record produced by `extract_one`: each field is the
value of its column lambda, and the per-domain columns repeat one position
and one traffic value across the whole domain context. -/
theorem extract_one_parts (item : JValue) (dl : List String) (r : Record)
    (h : extract_one item dl = .ok r) :
    r.keyword = extractKeyword (getCell item "keyword_data") ∧
    extractSearchVolume (getCell item "keyword_data") = .ok r.search_volume ∧
    extractDifficulty (getCell item "keyword_data") = .ok r.keyword_difficulty ∧
    extractCpc (getCell item "keyword_data") = .ok r.cpc ∧
    extractLastUpdated (getCell item "keyword_data") = .ok r.last_updated_time ∧
    (∃ p, extractPosition (getCell item "keyword_data") = .ok p ∧
      r.positions = dl.map (fun d => (d, p))) ∧
    (∃ t, extractTraffic (getCell item "ranked_serp_element") = .ok t ∧
      r.traffic = dl.map (fun d => (d, t))) := by
  unfold extract_one at h
  dsimp only at h
  cases h1 : extractSearchVolume (getCell item "keyword_data") with
  | error e => rw [h1] at h; cases h
  | ok sv =>
    rw [h1] at h
    cases h2 : extractDifficulty (getCell item "keyword_data") with
    | error e => rw [h2] at h; cases h
    | ok kdiff =>
      rw [h2] at h
      cases h3 : extractCpc (getCell item "keyword_data") with
      | error e => rw [h3] at h; cases h
      | ok cpcv =>
        rw [h3] at h
        cases h4 : extractLastUpdated (getCell item "keyword_data") with
        | error e => rw [h4] at h; cases h
        | ok lu =>
          rw [h4] at h
          cases h5 : extractPosition (getCell item "keyword_data") with
          | error e => rw [h5] at h; cases h
          | ok posv =>
            rw [h5] at h
            cases h6 : extractTraffic (getCell item "ranked_serp_element") with
            | error e => rw [h6] at h; cases h
            | ok trafv =>
              rw [h6] at h
              injection h with h'
              subst h'
              exact ⟨rfl, rfl, rfl, rfl, rfl, ⟨posv, rfl, rfl⟩, ⟨trafv, rfl, rfl⟩⟩

/-- The typing discipline of the §6 response contract, restricted to what
the extractor dereferences: the nested metadata values under the
`keyword_data` and `ranked_serp_element` cells, when present (and, where the
code guards on truthiness, truthy), are objects.  The raw items the script
is written for satisfy this; items outside it can raise `AttributeError`. -/
def wellShapedB (item : JValue) : Bool :=
  (match getCell item "keyword_data" with
   | .obj fs =>
     (match fs.lookupF "keyword_info" with
      | some v => v.isDict
      | none => true) &&
     (match fs.lookupF "keyword_properties" with
      | some v => v.isDict
      | none => true) &&
     (match fs.lookupF "avg_backlinks_info" with
      | some v => !v.truthy || v.isDict
      | none => true)
   | _ => true) &&
  (match getCell item "ranked_serp_element" with
   | .obj fs =>
     match fs.lookupF "serp_item" with
     | some v => !v.truthy || v.isDict
     | none => true
   | _ => true)

theorem wellShaped_parts (item : JValue) (h : wellShapedB item = true) :
    (∀ fs v, getCell item "keyword_data" = .obj fs →
      fs.lookupF "keyword_info" = some v → v.isDict) ∧
    (∀ fs v, getCell item "keyword_data" = .obj fs →
      fs.lookupF "keyword_properties" = some v → v.isDict) ∧
    (∀ fs v, getCell item "keyword_data" = .obj fs →
      fs.lookupF "avg_backlinks_info" = some v → v.truthy → v.isDict) ∧
    (∀ fs v, getCell item "ranked_serp_element" = .obj fs →
      fs.lookupF "serp_item" = some v → v.truthy → v.isDict) := by
  unfold wellShapedB at h
  rw [Bool.and_eq_true] at h
  obtain ⟨hkd, hrse⟩ := h
  refine ⟨?_, ?_, ?_, ?_⟩
  · intro fs v heq hl
    simp only [heq, hl, Bool.and_eq_true] at hkd
    exact hkd.1.1
  · intro fs v heq hl
    simp only [heq, hl, Bool.and_eq_true] at hkd
    exact hkd.1.2
  · intro fs v heq hl ht
    simp only [heq, hl, Bool.and_eq_true] at hkd
    rcases Bool.or_eq_true .. |>.mp hkd.2 with hnt | hd
    · rw [ht] at hnt
      simp at hnt
    · exact hd
  · intro fs v heq hl ht
    simp only [heq, hl] at hrse
    rcases Bool.or_eq_true .. |>.mp hrse with hnt | hd
    · rw [ht] at hnt
      simp at hnt
    · exact hd

theorem getD_obj (fs : JFields) (key : String)
    (hv : ∀ v, fs.lookupF key = some v → v.isDict) :
    ∃ gs, (JValue.obj fs).getD key (.obj .nil) = .obj gs := by
  cases hl : fs.lookupF key with
  | none => exact ⟨.nil, by simp [JValue.getD, hl]⟩
  | some v =>
    have hd := hv v hl
    cases v with
    | obj gs => exact ⟨gs, by simp [JValue.getD, hl]⟩
    | null => simp [JValue.isDict] at hd
    | num n => simp [JValue.isDict] at hd
    | str s => simp [JValue.isDict] at hd

theorem exists_ok {e : Type} {a : Type} (x : Except e a) (h : x.isOk = true) :
    ∃ w, x = .ok w := by
  cases x with
  | ok w => exact ⟨w, rfl⟩
  | error y => cases h

theorem extractSearchVolume_ok (x : JValue)
    (h : ∀ fs v, x = .obj fs → fs.lookupF "keyword_info" = some v → v.isDict) :
    ∃ w, extractSearchVolume x = .ok w := by
  apply exists_ok
  cases x with
  | obj fs =>
    obtain ⟨gs, hgs⟩ := getD_obj fs "keyword_info" (fun v hl => h fs v rfl hl)
    simp [extractSearchVolume, JValue.isDict, hgs, pyGet, Except.isOk, Except.toBool]
  | null => simp [extractSearchVolume, JValue.isDict, Except.isOk, Except.toBool]
  | num n => simp [extractSearchVolume, JValue.isDict, Except.isOk, Except.toBool]
  | str s => simp [extractSearchVolume, JValue.isDict, Except.isOk, Except.toBool]

theorem extractDifficulty_ok (x : JValue)
    (h : ∀ fs v, x = .obj fs → fs.lookupF "keyword_properties" = some v → v.isDict) :
    ∃ w, extractDifficulty x = .ok w := by
  apply exists_ok
  cases x with
  | obj fs =>
    obtain ⟨gs, hgs⟩ := getD_obj fs "keyword_properties" (fun v hl => h fs v rfl hl)
    simp [extractDifficulty, JValue.isDict, hgs, pyGet, Except.isOk, Except.toBool]
  | null => simp [extractDifficulty, JValue.isDict, Except.isOk, Except.toBool]
  | num n => simp [extractDifficulty, JValue.isDict, Except.isOk, Except.toBool]
  | str s => simp [extractDifficulty, JValue.isDict, Except.isOk, Except.toBool]

theorem extractLastUpdated_ok (x : JValue)
    (h : ∀ fs v, x = .obj fs → fs.lookupF "keyword_info" = some v → v.isDict) :
    ∃ w, extractLastUpdated x = .ok w := by
  apply exists_ok
  cases x with
  | obj fs =>
    obtain ⟨gs, hgs⟩ := getD_obj fs "keyword_info" (fun v hl => h fs v rfl hl)
    simp [extractLastUpdated, JValue.isDict, hgs, pyGet, Except.isOk, Except.toBool]
  | null => simp [extractLastUpdated, JValue.isDict, Except.isOk, Except.toBool]
  | num n => simp [extractLastUpdated, JValue.isDict, Except.isOk, Except.toBool]
  | str s => simp [extractLastUpdated, JValue.isDict, Except.isOk, Except.toBool]

theorem extractCpc_ok (x : JValue)
    (h : ∀ fs v, x = .obj fs → fs.lookupF "keyword_info" = some v → v.isDict) :
    ∃ w, extractCpc x = .ok w := by
  apply exists_ok
  cases x with
  | obj fs =>
    obtain ⟨gs, hgs⟩ := getD_obj fs "keyword_info" (fun v hl => h fs v rfl hl)
    simp only [extractCpc, JValue.isDict, if_true, hgs, pyGet]
    split
    · rfl
    · rfl
  | null => simp [extractCpc, JValue.isDict, Except.isOk, Except.toBool]
  | num n => simp [extractCpc, JValue.isDict, Except.isOk, Except.toBool]
  | str s => simp [extractCpc, JValue.isDict, Except.isOk, Except.toBool]

theorem extractPosition_ok (x : JValue)
    (h : ∀ fs v, x = .obj fs → fs.lookupF "avg_backlinks_info" = some v → v.truthy → v.isDict) :
    ∃ w, extractPosition x = .ok w := by
  by_cases hc : (x.isDict ∧ (x.getD "avg_backlinks_info" .null).truthy)
  · obtain ⟨hd, ht⟩ := hc
    cases x with
    | obj fs =>
      cases hl : fs.lookupF "avg_backlinks_info" with
      | none =>
        simp [JValue.getD, hl, JValue.truthy] at ht
      | some v =>
        have hvt : v.truthy := by
          simpa [JValue.getD, hl] using ht
        have hvd := h fs v rfl hl hvt
        cases v with
        | obj gs =>
          apply exists_ok
          rw [extractPosition, if_pos ⟨hd, ht⟩]
          simp [JValue.getD, hl, pyGet, Except.isOk, Except.toBool]
        | null => simp [JValue.isDict] at hvd
        | num n => simp [JValue.isDict] at hvd
        | str s => simp [JValue.isDict] at hvd
    | null => simp [JValue.isDict] at hd
    | num n => simp [JValue.isDict] at hd
    | str s => simp [JValue.isDict] at hd
  · exact ⟨.num 0, by rw [extractPosition, if_neg hc]⟩

theorem extractTraffic_ok (x : JValue)
    (h : ∀ fs v, x = .obj fs → fs.lookupF "serp_item" = some v → v.truthy → v.isDict) :
    ∃ w, extractTraffic x = .ok w := by
  by_cases hc : (x.isDict ∧ (x.getD "serp_item" .null).truthy)
  · obtain ⟨hd, ht⟩ := hc
    cases x with
    | obj fs =>
      cases hl : fs.lookupF "serp_item" with
      | none =>
        simp [JValue.getD, hl, JValue.truthy] at ht
      | some v =>
        have hvt : v.truthy := by
          simpa [JValue.getD, hl] using ht
        have hvd := h fs v rfl hl hvt
        cases v with
        | obj gs =>
          apply exists_ok
          rw [extractTraffic, if_pos ⟨hd, ht⟩]
          simp [JValue.getD, hl, pyGet, Except.isOk, Except.toBool]
        | null => simp [JValue.isDict] at hvd
        | num n => simp [JValue.isDict] at hvd
        | str s => simp [JValue.isDict] at hvd
    | null => simp [JValue.isDict] at hd
    | num n => simp [JValue.isDict] at hd
    | str s => simp [JValue.isDict] at hd
  · exact ⟨.num 0, by rw [extractTraffic, if_neg hc]⟩

theorem extract_one_ok_of_wellShaped (item : JValue) (dl : List String)
    (h : wellShapedB item = true) : ∃ r, extract_one item dl = .ok r := by
  obtain ⟨h1, h2, h3, h4⟩ := wellShaped_parts item h
  obtain ⟨sv, hsv⟩ := extractSearchVolume_ok (getCell item "keyword_data") h1
  obtain ⟨kdiff, hkdiff⟩ := extractDifficulty_ok (getCell item "keyword_data") h2
  obtain ⟨cpcv, hcpc⟩ := extractCpc_ok (getCell item "keyword_data") h1
  obtain ⟨lu, hlu⟩ := extractLastUpdated_ok (getCell item "keyword_data") h1
  obtain ⟨posv, hpos⟩ := extractPosition_ok (getCell item "keyword_data") h3
  obtain ⟨trafv, htraf⟩ := extractTraffic_ok (getCell item "ranked_serp_element") h4
  refine ⟨⟨extractKeyword (getCell item "keyword_data"), sv, kdiff, cpcv, lu,
    dl.map (fun d => (d, posv)), dl.map (fun d => (d, trafv))⟩, ?_⟩
  unfold extract_one
  dsimp only
  rw [hsv, hkdiff, hcpc, hlu, hpos, htraf]

/-- A raw item lacks an extractable keyword: its `keyword_data` cell is not
a dict, or is a dict without a `keyword` key. -/
def lacksKeyword (it : JValue) : Bool :=
  match getCell it "keyword_data" with
  | .obj fs => (fs.lookupF "keyword").isNone
  | _ => true

theorem extractKeyword_of_lacks (it : JValue) (h : lacksKeyword it = true) :
    extractKeyword (getCell it "keyword_data") = .str "N/A" := by
  unfold lacksKeyword at h
  cases hc : getCell it "keyword_data" with
  | obj fs =>
    rw [hc] at h
    dsimp only at h
    cases hl : fs.lookupF "keyword" with
    | none => simp [extractKeyword, JValue.isDict, JValue.getD, hl]
    | some v => rw [hl] at h; simp at h
  | null => simp [extractKeyword, JValue.isDict]
  | num n => simp [extractKeyword, JValue.isDict]
  | str s => simp [extractKeyword, JValue.isDict]

theorem count_filter_of_pos {α : Type} [DecidableEq α] (p : α → Bool) (l : List α)
    (a : α) (h : p a = true) : (l.filter p).count a = l.count a := by
  induction l with
  | nil => rfl
  | cons x xs ih =>
    by_cases hx : p x = true
    · rw [List.filter_cons_of_pos hx, List.count_cons, List.count_cons, ih]
    · rw [List.filter_cons_of_neg (by simpa using hx), List.count_cons, ih]
      have hxa : (x == a) = false := by
        rw [beq_eq_false_iff_ne]
        intro he
        rw [he] at hx
        exact hx h
      simp [hxa]

/-! ### The claims -/

/-- The concrete input for C1: the primary domain fetch yields one item, the
single competitor's fetch yields nothing. -/
def fetchC1 : String → List JValue := fun d =>
  if d = "a" then
    [.obj (.cons "keyword_data" (.obj (.cons "keyword" (.str "x") .nil))
      (.cons "ranked_serp_element" (.obj .nil) .nil))]
  else []

/-- C1: the claim says that when the primary fetch has data and a
competitor's fetch is empty, the analysis still completes best-effort with
that competitor excluded.  The code prints the skip warning but then builds
the matrix over `[my_domain] + competitors` — including the skipped
competitor — so `all_keywords[competitor]` raises `KeyError` and the whole
analysis aborts with no result.  This theorem evaluates the embedded code
at the failing input. -/
theorem c1_empty_competitor_aborts_with_keyerror :
    fetchC1 "a" ≠ [] ∧ fetchC1 "b" = [] ∧
    content_gap_analysis ["b"] "a" fetchC1 = .error (.keyError "b") := by decide

/-- C2: in a completed analysis, every off-diagonal matrix entry
`M[a][b]` (with `a ≠ b`) is the cardinality of the intersection of the two
domains' sets of normalized keywords — a set size, counting duplicate
keywords within a dataset once. -/
theorem c2_offdiagonal_is_intersection_card
    (competitors : List String) (my_domain : String) (fetch : String → List JValue)
    (res : AnalysisResult) (ak ck : List (String × List Record))
    (a b : String) (row : List (String × Nat)) (c : Nat)
    (hok : content_gap_analysis competitors my_domain fetch = .ok res)
    (hkt : keywordTables competitors my_domain fetch = .ok (ak, ck))
    (hrow : (a, row) ∈ res.matrix) (hc : (b, c) ∈ row) (hab : a ≠ b) :
    ∃ dsa dsb, alookup ak a = some dsa ∧ alookup ak b = some dsb ∧
      c = ((keywordsOf dsa).toFinset ∩ (keywordsOf dsb).toFinset).card := by
  obtain ⟨ak', ck', hkt', hm, _, _, _⟩ := content_ok_parts _ _ _ _ hok
  rw [hkt] at hkt'
  injection hkt' with hp
  injection hp with h1 h2
  subst h1
  subst h2
  unfold buildMatrix at hm
  have hbr := buildRows_mem _ _ _ _ hm a row hrow
  obtain ⟨hs1, hs2, hce⟩ := buildRow_mem _ _ _ _ hbr b c hc
  obtain ⟨dsa, hdsa⟩ := Option.isSome_iff_exists.mp hs1
  obtain ⟨dsb, hdsb⟩ := Option.isSome_iff_exists.mp hs2
  refine ⟨dsa, dsb, hdsa, hdsb, ?_⟩
  rw [hce]
  unfold matrixEntry
  rw [if_neg hab, hdsa, hdsb]
  simp only [Option.getD_some]
  exact interCount_eq_card _ _

/-- C6: the intersection matrix of a completed analysis is symmetric:
whenever `M` carries an entry `c1` at `(a, b)` and an entry `c2` at
`(b, a)`, the two counts agree. -/
theorem c6_matrix_symmetric
    (competitors : List String) (my_domain : String) (fetch : String → List JValue)
    (res : AnalysisResult) (a b : String)
    (ra rb : List (String × Nat)) (c1 c2 : Nat)
    (hok : content_gap_analysis competitors my_domain fetch = .ok res)
    (ha : (a, ra) ∈ res.matrix) (hb : (b, rb) ∈ res.matrix)
    (h1 : (b, c1) ∈ ra) (h2 : (a, c2) ∈ rb) : c1 = c2 := by
  obtain ⟨ak, ck, _, hm, _, _, _⟩ := content_ok_parts _ _ _ _ hok
  unfold buildMatrix at hm
  have hra := buildRows_mem _ _ _ _ hm a ra ha
  have hrb := buildRows_mem _ _ _ _ hm b rb hb
  obtain ⟨_, _, he1⟩ := buildRow_mem _ _ _ _ hra b c1 h1
  obtain ⟨_, _, he2⟩ := buildRow_mem _ _ _ _ hrb a c2 h2
  rw [he1, he2, matrixEntry_comm]

/-- C7: every diagonal entry `M[a][a]` of a completed analysis is the number
of records of domain `a`'s dataset — the dataset size, duplicates included,
not the deduplicated-keyword count. -/
theorem c7_diagonal_is_dataset_size
    (competitors : List String) (my_domain : String) (fetch : String → List JValue)
    (res : AnalysisResult) (ak ck : List (String × List Record))
    (a : String) (row : List (String × Nat)) (c : Nat)
    (hok : content_gap_analysis competitors my_domain fetch = .ok res)
    (hkt : keywordTables competitors my_domain fetch = .ok (ak, ck))
    (hrow : (a, row) ∈ res.matrix) (hc : (a, c) ∈ row) :
    ∃ ds, alookup ak a = some ds ∧ c = ds.length := by
  obtain ⟨ak', ck', hkt', hm, _, _, _⟩ := content_ok_parts _ _ _ _ hok
  rw [hkt] at hkt'
  injection hkt' with hp
  injection hp with h1 h2
  subst h1
  subst h2
  unfold buildMatrix at hm
  have hbr := buildRows_mem _ _ _ _ hm a row hrow
  obtain ⟨hs1, _, hce⟩ := buildRow_mem _ _ _ _ hbr a c hc
  obtain ⟨ds, hds⟩ := Option.isSome_iff_exists.mp hs1
  refine ⟨ds, hds, ?_⟩
  rw [hce]
  unfold matrixEntry
  rw [if_pos rfl, hds]
  simp

/-- C4: a fetch function with no items for the primary domain makes the
analysis fail with the no-primary-data error; the `Except.error` result
carries no matrix and no datasets. -/
theorem c4_empty_primary_fatal (competitors : List String) (my_domain : String)
    (fetch : String → List JValue) (h : fetch my_domain = []) :
    content_gap_analysis competitors my_domain fetch = .error .noPrimaryData := by
  unfold content_gap_analysis keywordTables primaryDataset
  rw [h]
  simp

/-- C3: for every successfully-fetched competitor of a completed analysis,
the common-keyword subset stored for it is exactly the primary dataset
filtered by the membership test against the competitor's normalized keyword
column: every record of the subset passes the test, no qualifying primary
record is omitted, and duplicate qualifying primary records keep their full
multiplicity (no deduplication). -/
theorem c3_common_subset_is_primary_filter
    (competitors : List String) (my_domain : String) (fetch : String → List JValue)
    (res : AnalysisResult) (ak ck : List (String × List Record))
    (c : String) (sub ds myk : List Record)
    (hok : content_gap_analysis competitors my_domain fetch = .ok res)
    (hkt : keywordTables competitors my_domain fetch = .ok (ak, ck))
    (hmyk : primaryDataset my_domain fetch = .ok myk)
    (hsub : alookup ck c = some sub) (hds : alookup ak c = some ds) :
    sub = myk.filter (fun r => decide (r.keyword ∈ keywordsOf ds)) ∧
    (∀ r, r ∈ sub → r.keyword ∈ keywordsOf ds) ∧
    (∀ r, r ∈ myk → r.keyword ∈ keywordsOf ds → r ∈ sub) ∧
    (∀ r, r.keyword ∈ keywordsOf ds → sub.count r = myk.count r) := by
  obtain ⟨myk', hp, hproc⟩ := keywordTables_parts _ _ _ _ _ hkt
  rw [hmyk] at hp
  injection hp with hp'
  subst hp'
  have hinv : commonInv myk ak ck :=
    processCompetitors_commonInv fetch competitors myk competitors ak ck
      [(my_domain, myk)] [] hproc (fun c0 sub0 h0 => by simp [alookup] at h0)
  obtain ⟨ds', hds', hfil⟩ := hinv c sub hsub
  rw [hds] at hds'
  injection hds' with hd
  subst hd
  refine ⟨hfil, ?_, ?_, ?_⟩
  · intro r hr
    rw [hfil] at hr
    exact of_decide_eq_true (List.mem_filter.mp hr).2
  · intro r hr hmem
    rw [hfil]
    exact List.mem_filter.mpr ⟨hr, decide_eq_true hmem⟩
  · intro r hmem
    rw [hfil]
    exact count_filter_of_pos _ _ _ (decide_eq_true hmem)

/-- C9: in a completed analysis over pairwise-distinct domains, the
`all_keywords` dict holds the primary dataset first and then one dataset per
competitor-with-data in competitor-input order, `common_keywords` holds one
subset per competitor-with-data in the same order, and the two returned
concatenations are exactly the flattenings of those dict values (each
dataset's internal order preserved). -/
theorem c9_concatenation_in_input_order
    (competitors : List String) (my_domain : String) (fetch : String → List JValue)
    (res : AnalysisResult) (ak ck : List (String × List Record)) (myk : List Record)
    (hok : content_gap_analysis competitors my_domain fetch = .ok res)
    (hkt : keywordTables competitors my_domain fetch = .ok (ak, ck))
    (hmyk : primaryDataset my_domain fetch = .ok myk)
    (hnd : competitors.Nodup) (hmn : my_domain ∉ competitors) :
    ak.map Prod.fst = my_domain :: competitors.filter (fun c => !(fetch c).isEmpty) ∧
    ck.map Prod.fst = competitors.filter (fun c => !(fetch c).isEmpty) ∧
    res.all_keywords_df = (ak.map Prod.snd).flatten ∧
    res.common_keywords_df = (ck.map Prod.snd).flatten ∧
    alookup ak my_domain = some myk := by
  obtain ⟨ak', ck', hkt', hm, hall, hcom, hne⟩ := content_ok_parts _ _ _ _ hok
  rw [hkt] at hkt'
  injection hkt' with hp
  injection hp with h1 h2
  subst h1
  subst h2
  obtain ⟨myk', hp2, hproc⟩ := keywordTables_parts _ _ _ _ _ hkt
  rw [hmyk] at hp2
  injection hp2 with hp2'
  subst hp2'
  have hfA : ∀ c, c ∈ competitors → alookup [(my_domain, myk)] c = none := by
    intro c hc
    have hcm : ¬ c = my_domain := fun he => hmn (he ▸ hc)
    simp [alookup, hcm]
  have hfC : ∀ c, c ∈ competitors → alookup ([] : List (String × List Record)) c = none := by
    intro c _
    rfl
  obtain ⟨e1, e2, e3⟩ := processCompetitors_keys fetch competitors myk competitors ak ck
    [(my_domain, myk)] [] hproc hfA hfC hnd
  refine ⟨?_, ?_, hall, hcom, ?_⟩
  · rw [e1]
    rfl
  · rw [e2]
    rfl
  · obtain ⟨f1, f2⟩ := e3 my_domain hmn
    rw [f1]
    simp [alookup]

/-- A raw item whose `keyword_data.keyword_info` is present but `null`:
`x.get('keyword_info', \x7b\x7d)` then returns `None` and the chained `.get`
raises `AttributeError`. -/
def itemNullKeywordInfo : JValue :=
  .obj (.cons "keyword_data" (.obj (.cons "keyword_info" .null .nil))
    (.cons "ranked_serp_element" (.obj .nil) .nil))

/-- C5 counterexample: the claim says normalization never fails on any raw
item; but on an item whose `keyword_info` is present and `null` the
`search_volume` lambda raises, so extraction fails for the record and the
batch. -/
theorem c5_counterexample_null_keyword_info :
    extract_one itemNullKeywordInfo ["a"] = .error () ∧
    extract_keyword_info [itemNullKeywordInfo] ["a"] = .error () := by decide

/-- C5 amended: provided the nested metadata values present under the
`keyword_data` / `ranked_serp_element` cells are objects (the §6 typing; a
present-but-null or otherwise non-object `keyword_info` instead raises),
normalization of a raw item never fails and never drops the record, and the
claimed defaults hold: a non-dict (or absent) `keyword_data` gives keyword
`"N/A"`, a missing `keyword` key gives `"N/A"` while a present one passes
through, a missing `keyword_info` defaults search volume to 0, cpc to 0 and
last-updated to `"N/A"`, a null cpc defaults to 0, and a missing
`keyword_properties` defaults the difficulty to 0. -/
theorem c5_amended_defaults (item : JValue) (dl : List String)
    (hws : wellShapedB item = true) :
    ∃ r, extract_one item dl = .ok r ∧
      ((getCell item "keyword_data").isDict = false → r.keyword = .str "N/A") ∧
      (∀ fs, getCell item "keyword_data" = .obj fs →
        (fs.lookupF "keyword" = none → r.keyword = .str "N/A") ∧
        (∀ kv, fs.lookupF "keyword" = some kv → r.keyword = kv) ∧
        (fs.lookupF "keyword_info" = none →
          r.search_volume = .num 0 ∧ r.cpc = .num 0 ∧ r.last_updated_time = .str "N/A") ∧
        (∀ kfs, fs.lookupF "keyword_info" = some (.obj kfs) →
          kfs.lookupF "cpc" = some .null → r.cpc = .num 0) ∧
        (fs.lookupF "keyword_properties" = none → r.keyword_difficulty = .num 0)) := by
  obtain ⟨r, hr⟩ := extract_one_ok_of_wellShaped item dl hws
  obtain ⟨hk, hsv, hkdiff, hcpc, hlu, _, _⟩ := extract_one_parts item dl r hr
  refine ⟨r, hr, ?_, ?_⟩
  · intro hnd
    rw [hk]
    unfold extractKeyword
    rw [hnd]
    simp
  · intro fs heq
    refine ⟨?_, ?_, ?_, ?_, ?_⟩
    · intro hnone
      rw [hk, heq]
      simp [extractKeyword, JValue.isDict, JValue.getD, hnone]
    · intro kv hkv
      rw [hk, heq]
      simp [extractKeyword, JValue.isDict, JValue.getD, hkv]
    · intro hnone
      rw [heq] at hsv hcpc hlu
      have e1 : extractSearchVolume (.obj fs) = .ok (.num 0) := by
        simp [extractSearchVolume, JValue.isDict, JValue.getD, hnone, pyGet, JFields.lookupF]
      have e2 : extractCpc (.obj fs) = .ok (.num 0) := by
        simp [extractCpc, JValue.isDict, JValue.getD, hnone, pyGet, JFields.lookupF]
      have e3 : extractLastUpdated (.obj fs) = .ok (.str "N/A") := by
        simp [extractLastUpdated, JValue.isDict, JValue.getD, hnone, pyGet, JFields.lookupF]
      rw [e1] at hsv
      rw [e2] at hcpc
      rw [e3] at hlu
      exact ⟨(Except.ok.inj hsv).symm, (Except.ok.inj hcpc).symm, (Except.ok.inj hlu).symm⟩
    · intro kfs hki hcnull
      rw [heq] at hcpc
      have e2 : extractCpc (.obj fs) = .ok (.num 0) := by
        simp [extractCpc, JValue.isDict, JValue.getD, hki, pyGet, hcnull]
      rw [e2] at hcpc
      exact (Except.ok.inj hcpc).symm
    · intro hnone
      rw [heq] at hkdiff
      have e4 : extractDifficulty (.obj fs) = .ok (.num 0) := by
        simp [extractDifficulty, JValue.isDict, JValue.getD, hnone, pyGet, JFields.lookupF]
      rw [e4] at hkdiff
      exact (Except.ok.inj hkdiff).symm

/-- A raw item shaped exactly as the §6 response contract: the
`avg_backlinks_info.rank` sits at the item's top level (a sibling of
`keyword_data`), and `ranked_serp_element.serp_item.etv` at the top level. -/
def itemTopAbi : JValue :=
  .obj (.cons "keyword_data"
         (.obj (.cons "keyword" (.str "k")
           (.cons "keyword_info" (.obj (.cons "search_volume" (.num 10)
             (.cons "cpc" (.num 2) (.cons "last_updated_time" (.str "t") .nil))))
             (.cons "keyword_properties"
               (.obj (.cons "keyword_difficulty" (.num 3) .nil)) .nil))))
       (.cons "avg_backlinks_info" (.obj (.cons "rank" (.num 5) .nil))
         (.cons "ranked_serp_element"
           (.obj (.cons "serp_item" (.obj (.cons "etv" (.num 7) .nil)) .nil)) .nil)))

/-- C8 counterexample: on a §6-shaped item with top-level backlink rank 5
and etv 7, the claim says `position_by_domain` gets 5; but the code looks
for `avg_backlinks_info` inside `keyword_data`, finds nothing, and writes
the default 0 (traffic does come out as 7 as claimed). -/
theorem c8_counterexample_top_level_rank_ignored :
    (extract_one itemTopAbi ["d"]).map Record.positions = .ok [("d", .num 0)] ∧
    (extract_one itemTopAbi ["d"]).map Record.traffic = .ok [("d", .num 7)] ∧
    JValue.num 0 ≠ JValue.num 5 := by decide

/-- C8 amended: `position_by_domain[domain]` is read from
`keyword_data.avg_backlinks_info.rank` (not from the item's top level, which
is ignored), `traffic_by_domain[domain]` from the top-level
`ranked_serp_element.serp_item.etv`, and every domain of the context
receives those same two values regardless of which domain the item came
from. -/
theorem c8_amended_position_from_keyword_data (item : JValue) (dl : List String)
    (fs : JFields) (hkd : getCell item "keyword_data" = .obj fs)
    (afs : JFields) (habi : fs.lookupF "avg_backlinks_info" = some (.obj afs))
    (hat : (JValue.obj afs).truthy = true)
    (rse : JFields) (hrse : getCell item "ranked_serp_element" = .obj rse)
    (sfs : JFields) (hsi : rse.lookupF "serp_item" = some (.obj sfs))
    (hst : (JValue.obj sfs).truthy = true)
    (hws : wellShapedB item = true) :
    ∃ r, extract_one item dl = .ok r ∧
      r.positions = dl.map (fun d => (d, (afs.lookupF "rank").getD (.num 0))) ∧
      r.traffic = dl.map (fun d => (d, (sfs.lookupF "etv").getD (.num 0))) := by
  obtain ⟨r, hr⟩ := extract_one_ok_of_wellShaped item dl hws
  obtain ⟨_, _, _, _, _, ⟨p, hp, hpos⟩, ⟨t, ht2, htraf⟩⟩ := extract_one_parts item dl r hr
  refine ⟨r, hr, ?_, ?_⟩
  · have e : extractPosition (getCell item "keyword_data") =
        .ok ((afs.lookupF "rank").getD (.num 0)) := by
      rw [hkd]
      simp [extractPosition, JValue.isDict, JValue.getD, habi, hat, pyGet]
    rw [e] at hp
    rw [hpos, (Except.ok.inj hp)]
  · have e : extractTraffic (getCell item "ranked_serp_element") =
        .ok ((sfs.lookupF "etv").getD (.num 0)) := by
      rw [hrse]
      simp [extractTraffic, JValue.isDict, JValue.getD, hsi, hst, pyGet]
    rw [e] at ht2
    rw [htraf, (Except.ok.inj ht2)]

/-- C10: in a completed analysis, whenever the fetches of two matrix domains
`a ≠ b` each contain a raw item without an extractable keyword, both stored
datasets carry a record with the normalized keyword `"n/a"` (the default
`"N/A"` after lowercasing and trimming), the keyword `"n/a"` lies in the
normalized-keyword-set intersection of the two domains, the off-diagonal
matrix entry at `(a, b)` counts it (so is at least 1), and every primary
record with keyword `"n/a"` enters the common-keyword subset stored for the
competitor `b`. -/
theorem c10_na_keyword_is_shared
    (competitors : List String) (my_domain : String) (fetch : String → List JValue)
    (res : AnalysisResult) (ak ck : List (String × List Record))
    (a b : String) (dsa dsb : List Record) (ita itb : JValue)
    (row : List (String × Nat)) (c : Nat)
    (hok : content_gap_analysis competitors my_domain fetch = .ok res)
    (hkt : keywordTables competitors my_domain fetch = .ok (ak, ck))
    (ha : alookup ak a = some dsa) (hb : alookup ak b = some dsb)
    (hita : ita ∈ fetch a) (hlacka : lacksKeyword ita = true)
    (hitb : itb ∈ fetch b) (hlackb : lacksKeyword itb = true)
    (hrow : (a, row) ∈ res.matrix) (hc : (b, c) ∈ row) (hab : a ≠ b) :
    (∃ ra, ra ∈ dsa ∧ ra.keyword = .str "n/a") ∧
    (∃ rb, rb ∈ dsb ∧ rb.keyword = .str "n/a") ∧
    (JValue.str "n/a") ∈ (keywordsOf dsa).toFinset ∩ (keywordsOf dsb).toFinset ∧
    1 ≤ c ∧
    (∀ sub myk, alookup ck b = some sub → primaryDataset my_domain fetch = .ok myk →
      ∀ r, r ∈ myk → r.keyword = .str "n/a" → r ∈ sub) := by
  obtain ⟨myk0, hp0, hproc⟩ := keywordTables_parts _ _ _ _ _ hkt
  obtain ⟨rs0, hx0, hmyk0⟩ := primaryDataset_parts _ _ _ hp0
  have hprov : provInv fetch ak := by
    refine processCompetitors_provInv fetch competitors myk0 competitors ak ck
      [(my_domain, myk0)] [] hproc ?_
    intro c0 ds0 h0
    by_cases hcm : c0 = my_domain
    · subst hcm
      simp [alookup] at h0
      subst h0
      exact ⟨[c0], rs0, hx0, hmyk0⟩
    · simp [alookup, hcm] at h0
  have key : ∀ (d : String) (ds : List Record) (it : JValue), alookup ak d = some ds →
      it ∈ fetch d → lacksKeyword it = true →
      ∃ rr, rr ∈ ds ∧ rr.keyword = .str "n/a" := by
    intro d ds it hds hit hlack
    obtain ⟨ctx, rs, hx, hdn⟩ := hprov d ds hds
    obtain ⟨r0, hr0, he0⟩ := extract_keyword_info_mem _ _ _ hx it hit
    have hk0 : r0.keyword = .str "N/A" := by
      have hpart := (extract_one_parts _ _ _ he0).1
      rw [hpart, extractKeyword_of_lacks it hlack]
    subst hdn
    refine ⟨⟨normalizeKeywordValue r0.keyword, r0.search_volume, r0.keyword_difficulty,
      r0.cpc, r0.last_updated_time, r0.positions, r0.traffic⟩, ?_, ?_⟩
    · unfold normalizeDataset
      exact List.mem_map_of_mem _ hr0
    · dsimp only
      rw [hk0]
      decide
  obtain ⟨ra, hra, hka⟩ := key a dsa ita ha hita hlacka
  obtain ⟨rb, hrb, hkb⟩ := key b dsb itb hb hitb hlackb
  have hma : (JValue.str "n/a") ∈ keywordsOf dsa := by
    have hmm := List.mem_map_of_mem Record.keyword hra
    rw [hka] at hmm
    exact hmm
  have hmb : (JValue.str "n/a") ∈ keywordsOf dsb := by
    have hmm := List.mem_map_of_mem Record.keyword hrb
    rw [hkb] at hmm
    exact hmm
  have hinter : (JValue.str "n/a") ∈ (keywordsOf dsa).toFinset ∩ (keywordsOf dsb).toFinset := by
    rw [Finset.mem_inter]
    exact ⟨List.mem_toFinset.mpr hma, List.mem_toFinset.mpr hmb⟩
  refine ⟨⟨ra, hra, hka⟩, ⟨rb, hrb, hkb⟩, hinter, ?_, ?_⟩
  · obtain ⟨ak', ck', hkt', hm, _, _, _⟩ := content_ok_parts _ _ _ _ hok
    rw [hkt] at hkt'
    injection hkt' with hp
    injection hp with h1 h2
    subst h1
    subst h2
    unfold buildMatrix at hm
    have hbr := buildRows_mem _ _ _ _ hm a row hrow
    obtain ⟨_, _, hce⟩ := buildRow_mem _ _ _ _ hbr b c hc
    rw [hce]
    unfold matrixEntry
    rw [if_neg hab, ha, hb]
    simp only [Option.getD_some]
    rw [interCount_eq_card]
    exact Finset.card_pos.mpr ⟨_, hinter⟩
  · intro sub myk hsubb hmykk
    rw [hmykk] at hp0
    injection hp0 with hp0'
    subst hp0'
    have hinv : commonInv myk ak ck :=
      processCompetitors_commonInv fetch competitors myk competitors ak ck
        [(my_domain, myk)] [] hproc (fun c0 sub0 h0 => by simp [alookup] at h0)
    obtain ⟨ds', hds', hfil⟩ := hinv b sub hsubb
    rw [hb] at hds'
    injection hds' with hd
    subst hd
    intro r hr hkr
    rw [hfil]
    refine List.mem_filter.mpr ⟨hr, decide_eq_true ?_⟩
    rw [hkr]
    exact hmb

/-! ### Concrete instantiations of the conditional claim theorems -/

/-- Pull the payload out of a successful `Except`, with a fallback. -/
def okOr {e a : Type} (x : Except e a) (d : a) : a :=
  match x with
  | .ok v => v
  | .error _ => d

/-- A minimal raw item ranking for the given keyword. -/
def itemW (kw : String) : JValue :=
  .obj (.cons "keyword_data" (.obj (.cons "keyword" (.str kw) .nil))
    (.cons "ranked_serp_element" (.obj .nil) .nil))

/-- The §8 scenario, with short keywords: the primary domain `a` ranks for
`x`, `X ` (a duplicate of `x` after normalization) and `y`; the competitor
`b` ranks for `x` and `z`. -/
def fetchW : String → List JValue := fun d =>
  if d = "a" then [itemW "x", itemW "X ", itemW "y"]
  else if d = "b" then [itemW "x", itemW "z"]
  else []

def resW : AnalysisResult := okOr (content_gap_analysis ["b"] "a" fetchW) ⟨[], [], []⟩

def akW : List (String × List Record) := (okOr (keywordTables ["b"] "a" fetchW) ([], [])).1

def ckW : List (String × List Record) := (okOr (keywordTables ["b"] "a" fetchW) ([], [])).2

def mykW : List Record := okOr (primaryDataset "a" fetchW) []

def dsbW : List Record := (alookup akW "b").getD []

def subW : List Record := (alookup ckW "b").getD []

theorem c2_witness :
    ∃ dsa dsb, alookup akW "a" = some dsa ∧ alookup akW "b" = some dsb ∧
      1 = ((keywordsOf dsa).toFinset ∩ (keywordsOf dsb).toFinset).card :=
  c2_offdiagonal_is_intersection_card ["b"] "a" fetchW resW akW ckW
    "a" "b" [("a", 3), ("b", 1)] 1 (by decide) (by decide) (by decide) (by decide) (by decide)

theorem c3_witness :
    subW = mykW.filter (fun r => decide (r.keyword ∈ keywordsOf dsbW)) :=
  (c3_common_subset_is_primary_filter ["b"] "a" fetchW resW akW ckW "b" subW dsbW mykW
    (by decide) (by decide) (by decide) (by decide) (by decide)).1

def fetchE : String → List JValue := fun _ => []

theorem c4_witness :
    content_gap_analysis ["b"] "a" fetchE = .error .noPrimaryData :=
  c4_empty_primary_fatal ["b"] "a" fetchE rfl

theorem c5_witness :
    ∃ r, extract_one (itemW "K") ["d"] = .ok r ∧ r.search_volume = .num 0 := by
  obtain ⟨r, hr, hnd, hobj⟩ := c5_amended_defaults (itemW "K") ["d"] (by decide)
  obtain ⟨h1, h2, h3, h4, h5⟩ := hobj (.cons "keyword" (.str "K") .nil) (by decide)
  exact ⟨r, hr, (h3 (by decide)).1⟩

theorem c6_witness : (1 : Nat) = 1 :=
  c6_matrix_symmetric ["b"] "a" fetchW resW "a" "b"
    [("a", 3), ("b", 1)] [("a", 1), ("b", 2)] 1 1
    (by decide) (by decide) (by decide) (by decide) (by decide)

theorem c7_witness : ∃ ds, alookup akW "a" = some ds ∧ 3 = ds.length :=
  c7_diagonal_is_dataset_size ["b"] "a" fetchW resW akW ckW "a" [("a", 3), ("b", 1)] 3
    (by decide) (by decide) (by decide) (by decide)

/-- A raw item carrying its backlink rank inside `keyword_data` — the place
the code actually reads it from. -/
def itemKdAbi : JValue :=
  .obj (.cons "keyword_data"
         (.obj (.cons "keyword" (.str "k")
           (.cons "avg_backlinks_info" (.obj (.cons "rank" (.num 5) .nil)) .nil)))
       (.cons "ranked_serp_element"
         (.obj (.cons "serp_item" (.obj (.cons "etv" (.num 7) .nil)) .nil)) .nil))

theorem c8_witness :
    ∃ r, extract_one itemKdAbi ["d"] = .ok r ∧
      r.positions = [("d", JValue.num 5)] ∧ r.traffic = [("d", JValue.num 7)] := by
  obtain ⟨r, h1, h2, h3⟩ := c8_amended_position_from_keyword_data itemKdAbi ["d"]
    (.cons "keyword" (.str "k")
      (.cons "avg_backlinks_info" (.obj (.cons "rank" (.num 5) .nil)) .nil)) (by decide)
    (.cons "rank" (.num 5) .nil) (by decide) (by decide)
    (.cons "serp_item" (.obj (.cons "etv" (.num 7) .nil)) .nil) (by decide)
    (.cons "etv" (.num 7) .nil) (by decide) (by decide)
    (by decide)
  refine ⟨r, h1, ?_, ?_⟩
  · rw [h2]
    decide
  · rw [h3]
    decide

theorem c9_witness :
    akW.map Prod.fst = "a" :: ["b"].filter (fun c => !(fetchW c).isEmpty) ∧
    ckW.map Prod.fst = ["b"].filter (fun c => !(fetchW c).isEmpty) := by
  have h := c9_concatenation_in_input_order ["b"] "a" fetchW resW akW ckW mykW
    (by decide) (by decide) (by decide) (by decide) (by decide)
  exact ⟨h.1, h.2.1⟩

/-- A raw item with a `keyword_data` dict that has no `keyword` key. -/
def itemNA : JValue :=
  .obj (.cons "keyword_data" (.obj .nil) (.cons "ranked_serp_element" (.obj .nil) .nil))

def fetchNA : String → List JValue := fun d =>
  if d = "a" then [itemNA] else if d = "b" then [itemNA] else []

def resNA : AnalysisResult := okOr (content_gap_analysis ["b"] "a" fetchNA) ⟨[], [], []⟩

def akNA : List (String × List Record) := (okOr (keywordTables ["b"] "a" fetchNA) ([], [])).1

def ckNA : List (String × List Record) := (okOr (keywordTables ["b"] "a" fetchNA) ([], [])).2

def dsaNA : List Record := (alookup akNA "a").getD []

def dsbNA : List Record := (alookup akNA "b").getD []

theorem c10_witness :
    (∃ ra, ra ∈ dsaNA ∧ ra.keyword = .str "n/a") ∧
    (∃ rb, rb ∈ dsbNA ∧ rb.keyword = .str "n/a") := by
  have h := c10_na_keyword_is_shared ["b"] "a" fetchNA resNA akNA ckNA "a" "b"
    dsaNA dsbNA itemNA itemNA [("a", 1), ("b", 1)] 1
    (by decide) (by decide) (by decide) (by decide) (by decide) (by decide)
    (by decide) (by decide) (by decide) (by decide) (by decide)
  exact ⟨h.1, h.2.1⟩

end SeoGap
